import Mathlib

/-!
Verification of the SolRoute DEX-routing library against its specification.

Each Go function relevant to the checked claims is translated into a Lean
definition ("shallow embedding"):
* `math.Int` (cosmossdk arbitrary-precision integers) and Go `big.Int`
  become `Int`;
* `uint128` (lukechampine.com/uint128) values become `Nat` together with
  explicit `2 ^ 128` overflow conditions; `Mul`/`Add` of that library abort
  the program on overflow, which is modelled by the `GoRes.crash`
  constructor (resp. `Option.none` where no error channel exists);
* Go functions returning `error` become `Except String`-like results;
  a Go runtime panic (slice index out of range, `big.Int` division by
  zero, uint128 overflow abort) is a crash, not an error return, and is
  modelled by a dedicated crash value;
* external collaborators (RPC, the per-pool `Quote` implementations, the
  SHA-256 based program-derived-address hash) are universally quantified
  parameters, so every theorem holds for every behaviour of those parts.
-/

namespace SolRoute

/-- Result of a Go call that can either return a value, return a non-nil
`error`, or abort the process with a runtime panic (modelled as `crash`). -/
inductive GoRes (α : Type) where
  | ok (a : α)
  | err (e : String)
  | crash
deriving DecidableEq, Repr

/-- Decoder state: the byte blob being decoded and the current offset,
mirroring the `offset` cursor of the Go decoders. -/
structure DecSt where
  data : List Nat
  off : Nat

/-- A decoding step: either a value and the advanced state, or `none` for a
Go runtime panic (slice index out of range). -/
def Dec (α : Type) : Type := DecSt → Option (α × DecSt)

instance : Monad Dec where
  pure a := fun s => some (a, s)
  bind m f := fun s =>
    match m s with
    | none => none
    | some (a, t) => f a t

/-- Little-endian interpretation of a byte list, as `binary.LittleEndian`
and `uint128.FromBytes` perform it. -/
def leNat (bs : List Nat) : Nat := bs.foldr (fun b acc => b + 256 * acc) 0

/-- Two's-complement reading of a 32-bit word, as Go
`int32(binary.LittleEndian.Uint32(...))`. -/
def toInt32 (n : Nat) : Int :=
  if n % 2 ^ 32 < 2 ^ 31 then (n % 2 ^ 32 : Nat) else (n % 2 ^ 32 : Nat) - 2 ^ 32

/-- Read `n` bytes at the cursor — the Go slice expression
`data[offset : offset+n]`, which panics when `offset+n` exceeds the slice
length — and interpret them with `g`. -/
def readN {α : Type} (n : Nat) (g : List Nat → α) : Dec α := fun s =>
  if s.off + n ≤ s.data.length then
    some (g ((s.data.drop s.off).take n), ⟨s.data, s.off + n⟩)
  else none

/-- A single byte `data[offset]`. -/
def readByte : Dec Nat := readN 1 leNat

/-- `binary.LittleEndian.Uint16(data[offset : offset+2])`. -/
def readU16 : Dec Nat := readN 2 leNat

/-- `int32(binary.LittleEndian.Uint32(data[offset : offset+4]))`. -/
def readI32 : Dec Int := readN 4 fun bs => toInt32 (leNat bs)

/-- `binary.LittleEndian.Uint64(data[offset : offset+8])`. -/
def readU64 : Dec Nat := readN 8 leNat

/-- `uint128.FromBytes(data[offset : offset+16])`. -/
def readU128 : Dec Nat := readN 16 leNat

/-- `solana.PublicKeyFromBytes(data[offset : offset+32])`. -/
def readPubkey : Dec (List Nat) := readN 32 id

/-- `offset += n` without touching the data (the padding skips of the Go
decoders read nothing and therefore cannot panic). -/
def skipBytes (n : Nat) : Dec Unit := fun s => some ((), ⟨s.data, s.off + n⟩)

/-- A decoder runs to completion, advancing the cursor by exactly `adv`,
whenever at least `need` bytes remain past the cursor. -/
def DecRuns {α : Type} (m : Dec α) (need adv : Nat) : Prop :=
  ∀ d o, o + need ≤ d.length → ∃ a, m ⟨d, o⟩ = some (a, ⟨d, o + adv⟩)

/-- A decoder panics (Go index out of range) whenever fewer than `need`
bytes remain past the cursor. -/
def DecFails {α : Type} (m : Dec α) (need : Nat) : Prop :=
  ∀ d o, d.length < o + need → m ⟨d, o⟩ = none

/-- A decoder that succeeds unconditionally, advancing by `adv` (the
trailing padding skips and the final `pure`). -/
def DecTotal {α : Type} (m : Dec α) (adv : Nat) : Prop :=
  ∀ d o, ∃ a, m ⟨d, o⟩ = some (a, ⟨d, o + adv⟩)

namespace Router

/-- The accumulator loop of `SimpleRouter.GetBestPool` (router.go, part_005
lines 39-49): iterate over the discovered pools in order, skip pools whose
`Quote` returns an error (modelled as `none`), and replace the running best
only on a strictly greater quote (`outAmount.GT(maxOut)`). -/
def getBestLoop {P : Type} (quote : P → Option Int) :
    List P → Option P × Int → Option P × Int
  | [], acc => acc
  | p :: rest, (best, maxOut) =>
    match quote p with
    | none => getBestLoop quote rest (best, maxOut)
    | some outAmount =>
      if maxOut < outAmount then getBestLoop quote rest (some p, outAmount)
      else getBestLoop quote rest (best, maxOut)

/-- `SimpleRouter.GetBestPool` (part_005 lines 36-54): run the loop with
`best = nil`, `maxOut = 0`; if no pool was selected return the error
`"no route found"`, otherwise the selected pool and its quote. -/
def GetBestPool {P : Type} (quote : P → Option Int) (pools : List P) :
    Except String (P × Int) :=
  match getBestLoop quote pools (none, 0) with
  | (none, _) => .error "no route found"
  | (some best, maxOut) => .ok (best, maxOut)

end Router

namespace Meteora

/-- `MaxBinPerArray` (meteora/utils.go line 72). -/
def MaxBinPerArray : Int := 70

/-- `BinIDToBinArrayIndex` (meteora/utils.go lines 78-89): Go `/` and `%`
truncate toward zero; the source subtracts 1 from the quotient for negative
ids with a nonzero remainder. -/
def BinIDToBinArrayIndex (binID : Int) : Int :=
  let quotient := Int.tdiv binID MaxBinPerArray
  let remainder := Int.tmod binID MaxBinPerArray
  if binID < 0 ∧ remainder ≠ 0 then quotient - 1 else quotient

/-- `Rounding` (meteora/utils.go lines 203-208). -/
inductive Rounding where
  | up
  | down
deriving DecidableEq, Repr

/-- `MulDiv` (meteora/utils.go lines 232-247): arbitrary-precision
`big.Int` arithmetic; `DivMod` is Go's Euclidean division and panics on a
zero divisor (modelled as `none`); `RoundingUp` adds one when the Euclidean
remainder is nonzero. -/
def MulDiv (x y denominator : Int) (rounding : Rounding) : Option Int :=
  if denominator = 0 then none
  else
    let prod := x * y
    let div := prod / denominator
    let mod := prod % denominator
    if rounding = .up ∧ mod ≠ 0 then some (div + 1) else some div

/-- `MulShr` (meteora/utils.go lines 211-219): `(x*y) >> offset` via
`MulDiv` with `scale = 1 <<< offset`; the `scale == 0` guard of the source
is kept although a `big.Int` left shift of 1 is never zero. -/
def MulShr (x y : Int) (offset : Nat) (rounding : Rounding) : GoRes Int :=
  let scale : Int := 2 ^ offset
  if scale = 0 then .err "shift overflow"
  else
    match MulDiv x y scale rounding with
    | none => .crash
    | some v => .ok v

/-- `ShlDiv` (meteora/utils.go lines 222-229): `(x <<< offset) / y` via
`MulDiv x scale y`; the zero check is on `scale`, not on the divisor `y`. -/
def ShlDiv (x y : Int) (offset : Nat) (rounding : Rounding) : GoRes Int :=
  let scale : Int := 2 ^ offset
  if scale = 0 then .err "shift overflow"
  else
    match MulDiv x scale y rounding with
    | none => .crash
    | some v => .ok v

/-- `One = uint128.From64(1).Lsh(ScaleOffset)` with `ScaleOffset = 64`
(part_006 lines 32, 54). -/
def One : Nat := 2 ^ 64

/-- `BasisPointMax` (part_006 line 39). -/
def BasisPointMax : Nat := 10000

/-- The `Hi` word of a `lukechampine.com/uint128` value represented as a
natural number below `2 ^ 128`. -/
def hi128 (u : Nat) : Nat := u / 2 ^ 64

/-- `uint128.Mul` of the lukechampine library aborts the program when the
product exceeds 128 bits; the abort is modelled as `none`. -/
def u128Mul (u v : Nat) : Option Nat :=
  if u * v < 2 ^ 128 then some (u * v) else none

/-- `uint128.Add` of the lukechampine library aborts the program when the
sum exceeds 128 bits; the abort is modelled as `none`. -/
def u128Add (u v : Nat) : Option Nat :=
  if u + v < 2 ^ 128 then some (u + v) else none

/-- The `for exp > 0` loop of `Pow` (meteora/utils.go lines 308-324):
square-and-multiply where the overflow guard before a multiplication checks
that both operands have a nonzero high word, and the guard before a
squaring checks the current value's high word. -/
def powLoop (result current exp : Nat) : GoRes Nat :=
  if _h : exp = 0 then .ok result
  else
    let step : GoRes Nat :=
      if exp % 2 = 1 then
        if 0 < hi128 result ∧ 0 < hi128 current then .err "multiplication overflow"
        else
          match u128Mul result current with
          | none => .crash
          | some r => .ok r
      else .ok result
    match step with
    | .ok result' =>
      if 0 < exp / 2 then
        if 0 < hi128 current then .err "square overflow"
        else
          match u128Mul current current with
          | none => .crash
          | some c => powLoop result' c (exp / 2)
      else powLoop result' current (exp / 2)
    | .err e => .err e
    | .crash => .crash
termination_by exp
decreasing_by all_goals omega

/-- `Pow` (meteora/utils.go lines 291-334): returns `One` for exponent 0,
runs the square-and-multiply loop on the absolute exponent, and rejects
negative exponents after the loop. -/
def Pow (base : Nat) (power : Int) : GoRes Nat :=
  if power = 0 then .ok One
  else
    let isNegative := power < 0
    let p := if isNegative then -power else power
    match powLoop One base p.toNat with
    | .ok result =>
      if isNegative then .err "negative power not implemented" else .ok result
    | .err e => .err e
    | .crash => .crash

/-- `GetPriceFromID` (meteora/utils.go lines 250-275): `bps` is the bin
step shifted left by `ScaleOffset = 64` (wrapping `Lsh`), divided by
`BasisPointMax`; the base is `One + bps` and the result is
`Pow base activeID`, with `Pow` errors wrapped by the
`"power calculation error: "` prefix. -/
def GetPriceFromID (activeID : Int) (binStep : Nat) : GoRes Nat :=
  let bps := binStep
  let shiftedBps := bps * 2 ^ 64 % 2 ^ 128
  if BasisPointMax = 0 then .err "division by zero"
  else
    let bps2 := shiftedBps / BasisPointMax
    match u128Add One bps2 with
    | none => .crash
    | some base =>
      match Pow base activeID with
      | .ok r => .ok r
      | .err e => .err ("power calculation error: " ++ e)
      | .crash => .crash

end Meteora

namespace Orca

/-- `TICK_ARRAY_SIZE` for Whirlpool (orca constants, part_009 line 24). -/
def TICK_ARRAY_SIZE : Int := 88

/-- `MAX_TICK` (part_009 line 27). -/
def MAX_TICK : Int := 443636

/-- `MIN_TICK` (part_009 line 28). -/
def MIN_TICK : Int := -443636

/-- `getWhirlpoolTickCount` (part_003 lines 123-125). -/
def getWhirlpoolTickCount (tickSpacing : Int) : Int :=
  tickSpacing * TICK_ARRAY_SIZE

/-- `getWhirlpoolTickArrayStartIndex` (part_003 lines 128-130):
`tick - tick % getWhirlpoolTickCount(tickSpacing)` where Go `%` is the
truncated remainder (`Int.tmod`). -/
def getWhirlpoolTickArrayStartIndex (tick tickSpacing : Int) : Int :=
  tick - Int.tmod tick (getWhirlpoolTickCount tickSpacing)

/-- `getWhirlpoolTickArrayStartIndexByTick` (part_003 lines 138-142): the
source computes `math.Floor(float64(tickIndex) / float64(ticksInArray))`
and multiplies back.  For `|tickIndex| ≤ MAX_TICK` and
`1 ≤ tickSpacing ≤ 65535` the float64 quotient is within half an ulp of
the exact rational and never rounds across an integer, so the float
computation coincides with floored integer division, which is how it is
modelled here. -/
def getWhirlpoolTickArrayStartIndexByTick (tickIndex tickSpacing : Int) : Int :=
  Int.fdiv tickIndex (getWhirlpoolTickCount tickSpacing) *
    getWhirlpoolTickCount tickSpacing

/-- `getOfficialTickArrayStartIndex` (part_003 lines 326-363): floored
division implemented with explicit adjustment of Go truncated division,
then lenient bounds checks. -/
def getOfficialTickArrayStartIndex (tickIndex tickSpacing offset : Int) :
    Except String Int :=
  let divisor := tickSpacing * TICK_ARRAY_SIZE
  let realIndex :=
    if 0 ≤ tickIndex then Int.tdiv tickIndex divisor
    else
      if Int.tmod tickIndex divisor ≠ 0 then Int.tdiv tickIndex divisor - 1
      else Int.tdiv tickIndex divisor
  let startTickIndex := (realIndex + offset) * tickSpacing * TICK_ARRAY_SIZE
  let ticksInArray := TICK_ARRAY_SIZE * tickSpacing
  let minTickIndex := MIN_TICK - (Int.tmod MIN_TICK ticksInArray + ticksInArray)
  let maxBoundary := MAX_TICK + ticksInArray
  let minBoundary := minTickIndex - ticksInArray
  if startTickIndex < minBoundary then
    .error "startTickIndex is extremely out of bounds (too small)"
  else if maxBoundary < startTickIndex then
    .error "startTickIndex is extremely out of bounds (too large)"
  else .ok startTickIndex

/-- `TICK_ARRAY_SEED` (part_009 line 58). -/
def TICK_ARRAY_SEED : String := "tick_array"

/-- The bytes of an ASCII string, as Go obtains them with `[]byte(s)`
(all strings involved here are pure ASCII, so UTF-8 bytes are the
character codes). -/
def asciiBytes (s : String) : List Nat := s.toList.map Char.toNat

/-- The seed list built by `DeriveWhirlpoolTickArrayPDA` (part_003 lines
302-313): `["tick_array", whirlpool pubkey bytes, start index rendered as a
decimal string]`; Go `fmt.Sprintf("%d", i)` is the decimal rendering, which
coincides with Lean `toString` on `Int`. -/
def DeriveWhirlpoolTickArrayPDASeeds (whirlpoolPubkey : List Nat)
    (startTickIndex : Int) : List (List Nat) :=
  [asciiBytes TICK_ARRAY_SEED, whirlpoolPubkey,
    asciiBytes (toString startTickIndex)]

/-- `DeriveWhirlpoolTickArrayPDA` (part_003 lines 302-322), parameterized
over the SHA-256 based `solana.FindProgramAddress` of the external library:
it applies that hash to exactly the seed list above. -/
def DeriveWhirlpoolTickArrayPDA {α : Type}
    (findProgramAddress : List (List Nat) → α)
    (whirlpoolPubkey : List Nat) (startTickIndex : Int) : α :=
  findProgramAddress (DeriveWhirlpoolTickArrayPDASeeds whirlpoolPubkey startTickIndex)

/-- The little-endian 8-byte (int64 two's complement) rendering of an
integer — what the seed would be if the index were encoded as raw bytes
instead of a decimal string. -/
def int64LeBytes (i : Int) : List Nat :=
  (List.range 8).map fun k => ((i % (2 : Int) ^ 64).toNat >>> (8 * k)) % 256

/-- `WhirlpoolRewardInfo` (whirlpoolPool.go lines 74-80). -/
structure WhirlpoolRewardInfo where
  mint : List Nat
  vault : List Nat
  authority : List Nat
  emissionsPerSecondX64 : Nat
  growthGlobalX64 : Nat

/-- `WhirlpoolPool` (whirlpoolPool.go lines 30-71), restricted to the
fields assigned by `Decode`. -/
structure WhirlpoolPool where
  whirlpoolsConfig : List Nat
  whirlpoolBump : List Nat
  tickSpacing : Nat
  feeTierIndexSeed : List Nat
  feeRate : Nat
  protocolFeeRate : Nat
  liquidity : Nat
  sqrtPrice : Nat
  tickCurrentIndex : Int
  protocolFeeOwedA : Nat
  protocolFeeOwedB : Nat
  tokenMintA : List Nat
  tokenVaultA : List Nat
  feeGrowthGlobalA : Nat
  tokenMintB : List Nat
  tokenVaultB : List Nat
  feeGrowthGlobalB : Nat
  rewardLastUpdatedTimestamp : Nat
  rewardInfos : List WhirlpoolRewardInfo

/-- One reward-info record of the Whirlpool decode loop
(whirlpoolPool.go lines 186-206). -/
def decodeWhirlpoolRewardInfo : Dec WhirlpoolRewardInfo := do
  let mint ← readPubkey
  let vault ← readPubkey
  let authority ← readPubkey
  let emissions ← readU128
  let growth ← readU128
  pure ⟨mint, vault, authority, emissions, growth⟩

/-- The field-by-field body of `WhirlpoolPool.Decode`
(whirlpoolPool.go lines 111-208), after the discriminator skip. -/
def whirlpoolDecodeBody : Dec WhirlpoolPool := do
  let whirlpoolsConfig ← readPubkey
  let whirlpoolBump ← readN 1 id
  let tickSpacing ← readU16
  let feeTierIndexSeed ← readN 2 id
  let feeRate ← readU16
  let protocolFeeRate ← readU16
  let liquidity ← readU128
  let sqrtPrice ← readU128
  let tickCurrentIndex ← readI32
  let protocolFeeOwedA ← readU64
  let protocolFeeOwedB ← readU64
  let tokenMintA ← readPubkey
  let tokenVaultA ← readPubkey
  let feeGrowthGlobalA ← readU128
  let tokenMintB ← readPubkey
  let tokenVaultB ← readPubkey
  let feeGrowthGlobalB ← readU128
  let rewardLastUpdatedTimestamp ← readU64
  let r0 ← decodeWhirlpoolRewardInfo
  let r1 ← decodeWhirlpoolRewardInfo
  let r2 ← decodeWhirlpoolRewardInfo
  pure ⟨whirlpoolsConfig, whirlpoolBump, tickSpacing, feeTierIndexSeed,
    feeRate, protocolFeeRate, liquidity, sqrtPrice, tickCurrentIndex,
    protocolFeeOwedA, protocolFeeOwedB, tokenMintA, tokenVaultA,
    feeGrowthGlobalA, tokenMintB, tokenVaultB, feeGrowthGlobalB,
    rewardLastUpdatedTimestamp, [r0, r1, r2]⟩

/-- `WhirlpoolPool.Decode` (whirlpoolPool.go lines 105-209): skip the
8-byte discriminator when more than 8 bytes are present, then decode the
fixed layout with unchecked slice indexing; `none` models the runtime
panic on a too-short blob.  No trailing-length check is performed, so
extra bytes beyond the recognized fields are ignored. -/
def WhirlpoolPool.Decode (data : List Nat) : Option WhirlpoolPool :=
  let d := if 8 < data.length then data.drop 8 else data
  match whirlpoolDecodeBody ⟨d, 0⟩ with
  | none => none
  | some (p, _) => some p

end Orca

namespace Raydium

/-- `RewardInfo` (clmmPool.go lines 79-91). -/
structure RewardInfo where
  rewardState : Nat
  openTime : Nat
  endTime : Nat
  lastUpdateTime : Nat
  emissionsPerSecondX64 : Nat
  rewardTotalEmissioned : Nat
  rewardClaimed : Nat
  tokenMint : List Nat
  tokenVault : List Nat
  authority : List Nat
  rewardGrowthGlobalX64 : Nat

/-- `CLMMPool` (clmmPool.go lines 22-77), restricted to the fields
assigned by `Decode`. -/
structure CLMMPool where
  bump : Nat
  ammConfig : List Nat
  owner : List Nat
  tokenMint0 : List Nat
  tokenMint1 : List Nat
  tokenVault0 : List Nat
  tokenVault1 : List Nat
  observationKey : List Nat
  mintDecimals0 : Nat
  mintDecimals1 : Nat
  tickSpacing : Nat
  liquidity : Nat
  sqrtPriceX64 : Nat
  tickCurrent : Int
  observationIndex : Nat
  observationUpdateDuration : Nat
  feeGrowthGlobal0X64 : Nat
  feeGrowthGlobal1X64 : Nat
  protocolFeesToken0 : Nat
  protocolFeesToken1 : Nat
  swapInAmountToken0 : Nat
  swapOutAmountToken1 : Nat
  swapInAmountToken1 : Nat
  swapOutAmountToken0 : Nat
  status : Nat
  rewardInfos : List RewardInfo
  tickArrayBitmap : List Nat
  totalFeesToken0 : Nat
  totalFeesClaimedToken0 : Nat
  totalFeesToken1 : Nat
  totalFeesClaimedToken1 : Nat
  fundFeesToken0 : Nat
  fundFeesToken1 : Nat
  openTime : Nat
  recentEpoch : Nat

/-- One reward-info record of the CLMM decode loop
(clmmPool.go lines 194-227). -/
def decodeRewardInfo : Dec RewardInfo := do
  let rewardState ← readByte
  let openTime ← readU64
  let endTime ← readU64
  let lastUpdateTime ← readU64
  let emissions ← readU128
  let totalEmissioned ← readU64
  let claimed ← readU64
  let tokenMint ← readPubkey
  let tokenVault ← readPubkey
  let authority ← readPubkey
  let growthGlobal ← readU128
  pure ⟨rewardState, openTime, endTime, lastUpdateTime, emissions,
    totalEmissioned, claimed, tokenMint, tokenVault, authority, growthGlobal⟩

/-- The field-by-field body of `CLMMPool.Decode`
(clmmPool.go lines 111-266), after the discriminator skip.  The final
`Padding1`/`Padding2` skips advance the offset without reading. -/
def clmmDecodeBody : Dec CLMMPool := do
  let bump ← readByte
  let ammConfig ← readPubkey
  let owner ← readPubkey
  let tokenMint0 ← readPubkey
  let tokenMint1 ← readPubkey
  let tokenVault0 ← readPubkey
  let tokenVault1 ← readPubkey
  let observationKey ← readPubkey
  let mintDecimals0 ← readByte
  let mintDecimals1 ← readByte
  let tickSpacing ← readU16
  let liquidity ← readU128
  let sqrtPriceX64 ← readU128
  let tickCurrent ← readI32
  let observationIndex ← readU16
  let observationUpdateDuration ← readU16
  let feeGrowthGlobal0X64 ← readU128
  let feeGrowthGlobal1X64 ← readU128
  let protocolFeesToken0 ← readU64
  let protocolFeesToken1 ← readU64
  let swapInAmountToken0 ← readU128
  let swapOutAmountToken1 ← readU128
  let swapInAmountToken1 ← readU128
  let swapOutAmountToken0 ← readU128
  let status ← readByte
  let _ ← skipBytes 7
  let r0 ← decodeRewardInfo
  let r1 ← decodeRewardInfo
  let r2 ← decodeRewardInfo
  let b0 ← readU64
  let b1 ← readU64
  let b2 ← readU64
  let b3 ← readU64
  let b4 ← readU64
  let b5 ← readU64
  let b6 ← readU64
  let b7 ← readU64
  let b8 ← readU64
  let b9 ← readU64
  let b10 ← readU64
  let b11 ← readU64
  let b12 ← readU64
  let b13 ← readU64
  let b14 ← readU64
  let b15 ← readU64
  let totalFeesToken0 ← readU64
  let totalFeesClaimedToken0 ← readU64
  let totalFeesToken1 ← readU64
  let totalFeesClaimedToken1 ← readU64
  let fundFeesToken0 ← readU64
  let fundFeesToken1 ← readU64
  let openTime ← readU64
  let recentEpoch ← readU64
  let _ ← skipBytes (24 * 8)
  let _ ← skipBytes (32 * 8)
  pure ⟨bump, ammConfig, owner, tokenMint0, tokenMint1, tokenVault0,
    tokenVault1, observationKey, mintDecimals0, mintDecimals1, tickSpacing,
    liquidity, sqrtPriceX64, tickCurrent, observationIndex,
    observationUpdateDuration, feeGrowthGlobal0X64, feeGrowthGlobal1X64,
    protocolFeesToken0, protocolFeesToken1, swapInAmountToken0,
    swapOutAmountToken1, swapInAmountToken1, swapOutAmountToken0, status,
    [r0, r1, r2],
    [b0, b1, b2, b3, b4, b5, b6, b7, b8, b9, b10, b11, b12, b13, b14, b15],
    totalFeesToken0, totalFeesClaimedToken0, totalFeesToken1,
    totalFeesClaimedToken1, fundFeesToken0, fundFeesToken1, openTime,
    recentEpoch⟩

/-- `CLMMPool.Decode` (clmmPool.go lines 105-267): skip the 8-byte
discriminator when more than 8 bytes are present, then decode the fixed
layout with unchecked slice indexing; `none` models the runtime panic on a
too-short blob.  The Go function's declared `error` result is always
`nil`: no decode-error value is ever returned. -/
def CLMMPool.Decode (data : List Nat) : Option CLMMPool :=
  let d := if 8 < data.length then data.drop 8 else data
  match clmmDecodeBody ⟨d, 0⟩ with
  | none => none
  | some (p, _) => some p

/-- `MIN_SQRT_PRICE_X64` (part_004 line 36). -/
def MIN_SQRT_PRICE_X64 : Int := 4295048016

/-- `MAX_SQRT_PRICE_X64` (part_004 line 37). -/
def MAX_SQRT_PRICE_X64 : Int := 79226673521066979257578248091

/-- The mutable locals of the `swapCompute` main loop
(clmmPool.go lines 601-637): remaining input, accumulated output, current
sqrt price, current tick, current liquidity, and the direction's fixed
price limit. -/
structure SwapState where
  amountSpecifiedRemaining : Int
  amountCalculated : Int
  sqrtPriceX64 : Int
  tick : Int
  liquidity : Int
  sqrtPriceLimitX64 : Int
deriving DecidableEq, Repr

/-- The `for` loop of `swapCompute` (clmmPool.go lines 639-755), with the
body (lines 645-748: next-tick search, bitmap hop, swap-step computation
and tick crossing, whose helpers live outside the provided sources)
abstracted as a function from loop state to either an error — the body's
early returns — or the updated state.  The loop checks its exit condition
`amountSpecifiedRemaining.IsZero() || sqrtPriceX64.Equal(sqrtPriceLimitX64)`
at the top, increments `loop` after the body, and returns the
maximum-iterations error as soon as `loop > 100`.  The second component
counts how many times the body ran. -/
def swapLoopGo (body : SwapState → Except String SwapState) (st : SwapState)
    (loop : Nat) : Except String Int × Nat :=
  if st.amountSpecifiedRemaining = 0 ∨ st.sqrtPriceX64 = st.sqrtPriceLimitX64 then
    (.ok st.amountCalculated, 0)
  else
    match body st with
    | .error e => (.error e, 1)
    | .ok st' =>
      if _h : 100 < loop + 1 then
        (.error "swap computation exceeded maximum iterations", 1)
      else
        let r := swapLoopGo body st' (loop + 1)
        (r.1, r.2 + 1)
termination_by 101 - loop
decreasing_by omega

/-- `swapCompute` (clmmPool.go lines 589-757): reject a zero input amount,
pick the direction's price limit (`MIN_SQRT_PRICE_X64 + 1` for exact input,
`MAX_SQRT_PRICE_X64 - 1` otherwise), and run the loop from counter 0. -/
def swapCompute (body : SwapState → Except String SwapState)
    (amountSpecified sqrtPriceStart liquidity tick : Int) :
    Except String Int :=
  if amountSpecified = 0 then .error "input amount cannot be zero"
  else
    let baseInput := 0 < amountSpecified
    let sqrtPriceLimitX64 :=
      if baseInput then MIN_SQRT_PRICE_X64 + 1 else MAX_SQRT_PRICE_X64 - 1
    (swapLoopGo body
      ⟨amountSpecified, 0, sqrtPriceStart, tick, liquidity, sqrtPriceLimitX64⟩
      0).1

end Raydium

end SolRoute

namespace SolRoute

/-- Go truncated remainder negates with its first argument. -/
theorem Int.tmod_neg_left (a b : Int) : Int.tmod (-a) b = -Int.tmod a b := by
  rw [Int.tmod_def, Int.tmod_def, Int.neg_tdiv]
  ring

/-- Truncated division plus the Go-style floor adjustment equals floored
division, for a positive divisor. -/
theorem tdiv_adjust_eq_fdiv (i d : Int) (hd : 0 < d) :
    (if i < 0 ∧ Int.tmod i d ≠ 0 then Int.tdiv i d - 1 else Int.tdiv i d) =
      Int.fdiv i d := by
  have hfd : Int.fdiv i d = i / d := Int.fdiv_eq_ediv _ (by omega)
  rcases le_or_lt 0 i with h | h
  · rw [if_neg (by omega), Int.fdiv_eq_tdiv h (le_of_lt hd)]
  · by_cases hz : Int.tmod i d = 0
    · rw [if_neg (by omega)]
      obtain ⟨k, hk⟩ := Int.dvd_of_tmod_eq_zero hz
      subst hk
      rw [hfd, Int.mul_ediv_cancel_left _ (ne_of_gt hd),
        Int.mul_tdiv_cancel_left _ (ne_of_gt hd)]
    · rw [if_pos ⟨h, hz⟩]
      have key := Int.tdiv_add_tmod i d
      have hneg : Int.tmod i d ≤ 0 := by
        have := Int.tmod_nonneg (a := -i) d (by omega)
        rw [Int.tmod_neg_left] at this
        omega
      have hlb : -d < Int.tmod i d := by
        have := Int.tmod_lt_of_pos (-i) hd
        rw [Int.tmod_neg_left] at this
        omega
      have h1 : i / d = Int.tmod i d / d + Int.tdiv i d := by
        conv_lhs => rw [← key]
        rw [add_comm (d * Int.tdiv i d), mul_comm d,
          Int.add_mul_ediv_right _ _ (ne_of_gt hd)]
      have h2 : Int.tmod i d / d = -1 := by
        have h3 : (d + Int.tmod i d) / d = 0 :=
          Int.ediv_eq_zero_of_lt (by omega) (by omega)
        have h4 : (d + Int.tmod i d + d * (-1)) / d = (d + Int.tmod i d) / d + (-1) :=
          Int.add_mul_ediv_left _ _ (ne_of_gt hd)
        have h5 : d + Int.tmod i d + d * (-1) = Int.tmod i d := by ring
        rw [h5] at h4
        omega
      rw [hfd]
      omega

/-- The running maximum of the router loop never decreases. -/
theorem getBestLoop_mono {P : Type} (quote : P → Option Int) (pools : List P)
    (best : Option P) (m : Int) :
    m ≤ (Router.getBestLoop quote pools (best, m)).2 := by
  induction pools generalizing best m with
  | nil => simp [Router.getBestLoop]
  | cons p rest ih =>
    cases hq : quote p with
    | none =>
      simp only [Router.getBestLoop, hq]
      exact ih best m
    | some v =>
      simp only [Router.getBestLoop, hq]
      by_cases hv : m < v
      · rw [if_pos hv]
        exact le_of_lt (lt_of_lt_of_le hv (ih (some p) v))
      · rw [if_neg hv]
        exact ih best m

/-- Every successful quote in the list is bounded by the loop's final
running maximum. -/
theorem getBestLoop_bound {P : Type} (quote : P → Option Int) (pools : List P)
    (best : Option P) (m : Int) (p : P) (v : Int) (hp : p ∈ pools)
    (hq : quote p = some v) :
    v ≤ (Router.getBestLoop quote pools (best, m)).2 := by
  induction pools generalizing best m with
  | nil => cases hp
  | cons q rest ih =>
    rcases List.mem_cons.mp hp with rfl | hmem
    · simp only [Router.getBestLoop, hq]
      by_cases hv : m < v
      · rw [if_pos hv]
        exact getBestLoop_mono quote rest (some p) v
      · rw [if_neg hv]
        exact le_trans (by omega) (getBestLoop_mono quote rest best m)
    · cases hqq : quote q with
      | none =>
        simp only [Router.getBestLoop, hqq]
        exact ih best m hmem
      | some w =>
        simp only [Router.getBestLoop, hqq]
        by_cases hw : m < w
        · rw [if_pos hw]; exact ih (some q) w hmem
        · rw [if_neg hw]; exact ih best m hmem

/-- If no successful quote exceeds the running maximum, the loop leaves the
accumulator unchanged. -/
theorem getBestLoop_unchanged {P : Type} (quote : P → Option Int)
    (pools : List P) (best : Option P) (m : Int)
    (h : ∀ p ∈ pools, ∀ v, quote p = some v → v ≤ m) :
    Router.getBestLoop quote pools (best, m) = (best, m) := by
  induction pools with
  | nil => simp [Router.getBestLoop]
  | cons p rest ih =>
    cases hq : quote p with
    | none =>
      simp only [Router.getBestLoop, hq]
      exact ih fun q hq' v hv => h q (List.mem_cons_of_mem p hq') v hv
    | some v =>
      simp only [Router.getBestLoop, hq]
      rw [if_neg (by have := h p (List.mem_cons_self p rest) v hq; omega)]
      exact ih fun q hq' w hw => h q (List.mem_cons_of_mem p hq') w hw

/-- Decomposition of the router loop at its last accumulator update: either
nothing ever updated the accumulator, or the list splits around the pool
that set the final value. -/
theorem getBestLoop_last_update {P : Type} (quote : P → Option Int)
    (pools : List P) (best : Option P) (m : Int) :
    Router.getBestLoop quote pools (best, m) = (best, m) ∨
      ∃ l1 b l2 vb, pools = l1 ++ b :: l2 ∧ quote b = some vb ∧
        (Router.getBestLoop quote l1 (best, m)).2 < vb ∧
        Router.getBestLoop quote l2 (some b, vb) = (some b, vb) ∧
        Router.getBestLoop quote pools (best, m) = (some b, vb) := by
  induction pools generalizing best m with
  | nil => left; simp [Router.getBestLoop]
  | cons p rest ih =>
    cases hq : quote p with
    | none =>
      simp only [Router.getBestLoop, hq]
      rcases ih best m with h | ⟨l1, b, l2, vb, rfl, hb, hlt, hstay, hres⟩
      · left; exact h
      · right
        refine ⟨p :: l1, b, l2, vb, rfl, hb, ?_, hstay, ?_⟩
        · simpa only [Router.getBestLoop, hq] using hlt
        · exact hres
    | some v =>
      simp only [Router.getBestLoop, hq]
      by_cases hv : m < v
      · rw [if_pos hv]
        rcases ih (some p) v with h | ⟨l1, b, l2, vb, rfl, hb, hlt, hstay, hres⟩
        · right
          exact ⟨[], p, rest, v, rfl, hq, by simpa [Router.getBestLoop] using hv, h, h⟩
        · right
          refine ⟨p :: l1, b, l2, vb, rfl, hb, ?_, hstay, hres⟩
          simpa only [Router.getBestLoop, hq, if_pos hv] using hlt
      · rw [if_neg hv]
        rcases ih best m with h | ⟨l1, b, l2, vb, rfl, hb, hlt, hstay, hres⟩
        · left; exact h
        · right
          refine ⟨p :: l1, b, l2, vb, rfl, hb, ?_, hstay, hres⟩
          simpa only [Router.getBestLoop, hq, if_neg hv] using hlt

/-- C1: when `GetBestPool` returns a pool, that pool's quote equals the
maximum over all candidates whose quote succeeded, and among the candidates
attaining that maximum the one earliest in discovery order is returned
(every candidate strictly before it quotes strictly below the maximum). -/
theorem getBestPool_argmax {P : Type} (quote : P → Option Int)
    (pools : List P) (b : P) (out : Int)
    (h : Router.GetBestPool quote pools = .ok (b, out)) :
    quote b = some out ∧
      (∀ p ∈ pools, ∀ v, quote p = some v → v ≤ out) ∧
      ∃ l1 l2, pools = l1 ++ b :: l2 ∧
        ∀ p ∈ l1, ∀ v, quote p = some v → v < out := by
  unfold Router.GetBestPool at h
  rcases getBestLoop_last_update quote pools none 0 with
    hnone | ⟨l1, b', l2, vb, hsplit, hqb, hlt, _, hres⟩
  · rw [hnone] at h
    cases h
  · rw [hres] at h
    have hb : b' = b ∧ vb = out := by
      cases h
      exact ⟨rfl, rfl⟩
    obtain ⟨rfl, rfl⟩ := hb
    refine ⟨hqb, ?_, l1, l2, hsplit, ?_⟩
    · intro p hp v hv
      have := getBestLoop_bound quote pools none 0 p v hp hv
      rw [hres] at this
      exact this
    · intro p hp v hv
      have := getBestLoop_bound quote l1 none 0 p v hp hv
      omega

/-- Witness for C1 on a concrete three-pool list with quotes 1, 2, 3. -/
theorem getBestPool_argmax_witness :
    (fun n : Nat => some (n : Int)) 3 = some 3 ∧
      (∀ p ∈ [1, 2, 3], ∀ v, (fun n : Nat => some (n : Int)) p = some v → v ≤ 3) ∧
      ∃ l1 l2, [1, 2, 3] = l1 ++ 3 :: l2 ∧
        ∀ p ∈ l1, ∀ v, (fun n : Nat => some (n : Int)) p = some v → v < 3 :=
  getBestPool_argmax (fun n : Nat => some (n : Int)) [1, 2, 3] 3 3 (by rfl)

/-- C7: quote failures are skipped without failing the call (the result over
a pool list equals the result over the sublist of pools whose quote
succeeds), the empty candidate set yields the no-route-found error, and
`"no route found"` is the only error `GetBestPool` itself returns. -/
theorem getBestPool_error_handling {P : Type} (quote : P → Option Int)
    (pools : List P) :
    Router.GetBestPool quote ([] : List P) = .error "no route found" ∧
      (∀ e, Router.GetBestPool quote pools = .error e → e = "no route found") ∧
      Router.GetBestPool quote pools =
        Router.GetBestPool quote (pools.filter fun p => (quote p).isSome) := by
  refine ⟨by rfl, ?_, ?_⟩
  · intro e he
    unfold Router.GetBestPool at he
    cases hres : Router.getBestLoop quote pools (none, 0) with
    | mk fst snd =>
      rw [hres] at he
      cases fst with
      | none => cases he; rfl
      | some b => cases he
  · unfold Router.GetBestPool
    have : ∀ (l : List P) (acc : Option P × Int),
        Router.getBestLoop quote l acc =
          Router.getBestLoop quote (l.filter fun p => (quote p).isSome) acc := by
      intro l
      induction l with
      | nil => intro acc; rfl
      | cons p rest ih =>
        intro acc
        obtain ⟨best, m⟩ := acc
        cases hq : quote p with
        | none =>
          simp only [Router.getBestLoop, hq, List.filter_cons, Option.isSome_none,
            Bool.false_eq_true, if_neg, reduceIte]
          exact ih (best, m)
        | some v =>
          simp only [Router.getBestLoop, hq, List.filter_cons, Option.isSome_some, reduceIte]
          by_cases hv : m < v
          · rw [if_pos hv, if_pos hv, ih (some p, v)]
          · rw [if_neg hv, if_neg hv, ih (best, m)]
    rw [this pools (none, 0)]

/-- Witness for C7: a single pool whose quote errors yields the
no-route-found error, which the theorem certifies is the only router
error. -/
theorem getBestPool_error_handling_witness :
    Router.GetBestPool (fun _ : Nat => (none : Option Int)) [5] =
        .error "no route found" ∧
      "no route found" = "no route found" :=
  ⟨by rfl,
    (getBestPool_error_handling (fun _ : Nat => (none : Option Int)) [5]).2.1
      "no route found" (by rfl)⟩

/-- C10: the router selects a pool only when some successful quote is
strictly positive; if every candidate quotes successfully with a value that
is zero or negative, `GetBestPool` reports the no-route-found error. -/
theorem getBestPool_requires_positive_quote {P : Type} (quote : P → Option Int)
    (pools : List P) :
    ((∀ p ∈ pools, ∀ v, quote p = some v → v ≤ 0) →
        Router.GetBestPool quote pools = .error "no route found") ∧
      ∀ b out, Router.GetBestPool quote pools = .ok (b, out) →
        0 < out ∧ b ∈ pools ∧ quote b = some out := by
  constructor
  · intro h
    unfold Router.GetBestPool
    rw [getBestLoop_unchanged quote pools none 0 h]
  · intro b out h
    unfold Router.GetBestPool at h
    rcases getBestLoop_last_update quote pools none 0 with
      hnone | ⟨l1, b', l2, vb, hsplit, hqb, hlt, _, hres⟩
    · rw [hnone] at h
      cases h
    · rw [hres] at h
      have hb : b' = b ∧ vb = out := by
        cases h
        exact ⟨rfl, rfl⟩
      obtain ⟨rfl, rfl⟩ := hb
      have h0 : (0 : Int) ≤ (Router.getBestLoop quote l1 (none, 0)).2 :=
        getBestLoop_mono quote l1 none 0
      exact ⟨by omega, by rw [hsplit]; exact List.mem_append_right _ (List.mem_cons_self _ _), hqb⟩

/-- Witness for C10: a single pool quoting exactly zero is rejected and the
router reports no route found. -/
theorem getBestPool_requires_positive_quote_witness :
    Router.GetBestPool (fun _ : Nat => some (0 : Int)) [7] =
      .error "no route found" :=
  (getBestPool_requires_positive_quote (fun _ : Nat => some (0 : Int)) [7]).1
    (by
      intro p hp v hv
      simp only [Option.some.injEq] at hv
      omega)

/-- For a positive divisor, negating a Euclidean quotient of the negated
dividend yields the ceiling of the rational quotient. -/
theorem neg_ediv_of_pos (n d : Int) (hd : 0 < d) :
    -(-n / d) = n / d + (if n % d = 0 then 0 else 1) := by
  have h := Int.ediv_add_emod n d
  have hm0 : 0 ≤ n % d := Int.emod_nonneg _ (by omega)
  have hm1 : n % d < d := Int.emod_lt_of_pos _ hd
  by_cases hz : n % d = 0
  · rw [if_pos hz]
    have h5 : d * (-(n / d)) = -(d * (n / d)) := by ring
    have h4 : -n = d * (-(n / d)) := by omega
    rw [h4, Int.mul_ediv_cancel_left _ (ne_of_gt hd)]
    omega
  · rw [if_neg hz]
    have h4 : -n = (d - n % d) + d * (-(n / d) - 1) := by
      have h5 : d * (-(n / d) - 1) = -(d * (n / d)) - d := by ring
      omega
    rw [h4, Int.add_mul_ediv_left _ _ (ne_of_gt hd),
      Int.ediv_eq_zero_of_lt (by omega) (by omega)]
    ring

/-- C9: for every bin id `i` (positive, zero, or negative),
`BinIDToBinArrayIndex i` equals the floor of `i / 70` (division toward
negative infinity); in particular `BinIDToBinArrayIndex (-1) = -1`. -/
theorem binIDToBinArrayIndex_is_floor_div (i : Int) :
    Meteora.BinIDToBinArrayIndex i = Int.fdiv i 70 ∧
      Meteora.BinIDToBinArrayIndex (-1) = -1 := by
  constructor
  · unfold Meteora.BinIDToBinArrayIndex Meteora.MaxBinPerArray
    exact tdiv_adjust_eq_fdiv i 70 (by norm_num)
  · decide

/-- Unfolding rule for the decoder monad's bind. -/
theorem dec_bind_run {α β : Type} (m : Dec α) (f : α → Dec β) (s : DecSt) :
    (m >>= f) s =
      match m s with
      | none => none
      | some (a, t) => f a t := rfl

/-- Unfolding rule for the decoder monad's pure. -/
theorem dec_pure_run {α : Type} (a : α) (s : DecSt) :
    (pure a : Dec α) s = some (a, s) := rfl

/-- Associativity of the decoder bind (definitional). -/
theorem dec_bind_assoc {α β γ : Type} (m : Dec α) (g : α → Dec β)
    (f : β → Dec γ) : ((m >>= g) >>= f) = (m >>= fun a => g a >>= f) := by
  funext s
  rw [dec_bind_run, dec_bind_run, dec_bind_run]
  cases m s with
  | none => rfl
  | some p => rfl

/-- A bound `pure` continues with the value (definitional). -/
theorem dec_pure_bind {α β : Type} (a : α) (f : α → Dec β) :
    ((pure a : Dec α) >>= f) = f a := rfl

/-- Running a bound `readN`: succeed and advance the cursor when `n` more
bytes exist, otherwise panic. -/
theorem readN_bind {α β : Type} (n : Nat) (g : List Nat → α) (f : α → Dec β)
    (d : List Nat) (o : Nat) :
    (readN n g >>= f) ⟨d, o⟩ =
      if o + n ≤ d.length then f (g ((d.drop o).take n)) ⟨d, o + n⟩
      else none := by
  rw [dec_bind_run]
  unfold readN
  split_ifs <;> rfl

/-- Running a bound `skipBytes`: always advances. -/
theorem skipBytes_bind {β : Type} (n : Nat) (f : Unit → Dec β)
    (d : List Nat) (o : Nat) :
    (skipBytes n >>= f) ⟨d, o⟩ = f () ⟨d, o + n⟩ := rfl

/-- `readN` runs when `n` bytes remain. -/
theorem decRuns_readN {α : Type} (n : Nat) (g : List Nat → α) :
    DecRuns (readN n g) n n := by
  intro d o h
  exact ⟨_, by unfold readN; rw [if_pos h]⟩

/-- `readN` panics when fewer than `n` bytes remain. -/
theorem decFails_readN {α : Type} (n : Nat) (g : List Nat → α) :
    DecFails (readN n g) n := by
  intro d o h
  show (if o + n ≤ d.length then
      some (g ((d.drop o).take n), (⟨d, o + n⟩ : DecSt)) else none) = none
  rw [if_neg (by omega)]

/-- `skipBytes` runs unconditionally. -/
theorem decRuns_skip (n : Nat) : DecRuns (skipBytes n) 0 n :=
  fun _ _ _ => ⟨(), rfl⟩

/-- `skipBytes` as a total decoder. -/
theorem decTotal_skip (n : Nat) : DecTotal (skipBytes n) n :=
  fun _ _ => ⟨(), rfl⟩

/-- `pure` as a total decoder. -/
theorem decTotal_pure {α : Type} (a : α) : DecTotal (pure a : Dec α) 0 :=
  fun _ _ => ⟨a, rfl⟩

/-- Sequencing two total decoders; the continuation advance is the
remaining budget `A - a1`. -/
theorem decTotal_bind {α β : Type} {m : Dec α} {f : α → Dec β} {a1 A : Nat}
    (h1 : DecTotal m a1) (h2 : ∀ x, DecTotal (f x) (A - a1)) (ha : a1 ≤ A) :
    DecTotal (m >>= f) A := by
  intro d o
  obtain ⟨a, ha'⟩ := h1 d o
  obtain ⟨b, hb⟩ := h2 a d (o + a1)
  refine ⟨b, ?_⟩
  rw [dec_bind_run, ha']
  dsimp only
  rw [hb]
  have he : o + a1 + (A - a1) = o + A := by omega
  rw [he]

/-- Sequencing: the head needs `k1` bytes and advances `a1`; the
continuation gets the remaining budgets `K - a1` and `A - a1`. -/
theorem decRuns_bind {α β : Type} {m : Dec α} {f : α → Dec β}
    {k1 a1 K A : Nat} (h1 : DecRuns m k1 a1)
    (h2 : ∀ x, DecRuns (f x) (K - a1) (A - a1)) (hk : k1 ≤ K)
    (haK : a1 ≤ K) (haA : a1 ≤ A) : DecRuns (m >>= f) K A := by
  intro d o h
  obtain ⟨a, ha'⟩ := h1 d o (by omega)
  obtain ⟨b, hb⟩ := h2 a d (o + a1) (by omega)
  refine ⟨b, ?_⟩
  rw [dec_bind_run, ha']
  dsimp only
  rw [hb]
  have he : o + a1 + (A - a1) = o + A := by omega
  rw [he]

/-- Sequencing a decoder with a total continuation (the trailing padding
skips and final `pure`). -/
theorem decRuns_bind_tot {α β : Type} {m : Dec α} {f : α → Dec β}
    {k1 a1 K A : Nat} (h1 : DecRuns m k1 a1)
    (h2 : ∀ x, DecTotal (f x) (A - a1)) (hK : k1 ≤ K) (haA : a1 ≤ A) :
    DecRuns (m >>= f) K A := by
  intro d o h
  obtain ⟨a, ha'⟩ := h1 d o (by omega)
  obtain ⟨b, hb⟩ := h2 a d (o + a1)
  refine ⟨b, ?_⟩
  rw [dec_bind_run, ha']
  dsimp only
  rw [hb]
  have he : o + a1 + (A - a1) = o + A := by omega
  rw [he]

/-- Failure of a sequence at the combined threshold: either the head
already lacks bytes, or it runs and the continuation fails within the
remaining budget `K - a1`. -/
theorem decFails_comp {α β : Type} {m : Dec α} {f : α → Dec β}
    {k1 a1 K : Nat} (h1 : DecRuns m k1 a1) (h1f : DecFails m k1)
    (h2 : ∀ x, DecFails (f x) (K - a1)) (_hk1 : k1 ≤ K) (ha : a1 ≤ K) :
    DecFails (m >>= f) K := by
  intro d o h
  by_cases hc : o + k1 ≤ d.length
  · obtain ⟨a, ha'⟩ := h1 d o hc
    rw [dec_bind_run, ha']
    exact h2 a d (o + a1) (by omega)
  · rw [dec_bind_run, h1f d o (by omega)]

/-- Failure threshold through a padding skip. -/
theorem decFails_skip {β : Type} {f : Unit → Dec β} {n K : Nat}
    (h2 : ∀ x, DecFails (f x) (K - n)) (hn : n ≤ K) :
    DecFails (skipBytes n >>= f) K := by
  intro d o h
  rw [skipBytes_bind]
  exact h2 () d (o + n) (by omega)

/-- A failing head decoder fails the whole sequence. -/
theorem decFails_left {α β : Type} {m : Dec α} {f : α → Dec β} {k : Nat}
    (h1 : DecFails m k) : DecFails (m >>= f) k := by
  intro d o h
  rw [dec_bind_run, h1 d o h]

/-- The CLMM reward-info record consumes exactly its 169 bytes. -/
theorem decRuns_rewardInfo : DecRuns Raydium.decodeRewardInfo 169 169 := by
  unfold Raydium.decodeRewardInfo readByte readU64 readU128 readPubkey
  iterate 10 refine decRuns_bind (decRuns_readN _ _) (fun _ => ?_) ?_ ?_ ?_
  refine decRuns_bind_tot (decRuns_readN _ _) (fun _ => decTotal_pure _) ?_ ?_
  all_goals omega

/-- The CLMM reward-info record panics short of its 169 bytes. -/
theorem decFails_rewardInfo : DecFails Raydium.decodeRewardInfo 169 := by
  unfold Raydium.decodeRewardInfo readByte readU64 readU128 readPubkey
  iterate 10
    refine decFails_comp (decRuns_readN _ _) (decFails_readN _ _)
      (fun _ => ?_) ?_ ?_
  exact decFails_left (decFails_readN _ _)
  all_goals omega

/-- The Whirlpool reward-info record consumes exactly its 128 bytes. -/
theorem decRuns_wRewardInfo :
    DecRuns Orca.decodeWhirlpoolRewardInfo 128 128 := by
  unfold Orca.decodeWhirlpoolRewardInfo readU128 readPubkey
  iterate 4 refine decRuns_bind (decRuns_readN _ _) (fun _ => ?_) ?_ ?_ ?_
  refine decRuns_bind_tot (decRuns_readN _ _) (fun _ => decTotal_pure _) ?_ ?_
  all_goals omega

/-- The Whirlpool reward-info record panics short of its 128 bytes. -/
theorem decFails_wRewardInfo : DecFails Orca.decodeWhirlpoolRewardInfo 128 := by
  unfold Orca.decodeWhirlpoolRewardInfo readU128 readPubkey
  iterate 4
    refine decFails_comp (decRuns_readN _ _) (decFails_readN _ _)
      (fun _ => ?_) ?_ ?_
  exact decFails_left (decFails_readN _ _)
  all_goals omega

/-- The CLMM decode body runs on 1088 available bytes, advancing 1536. -/
theorem clmmBody_runs : DecRuns Raydium.clmmDecodeBody 1088 1536 := by
  unfold Raydium.clmmDecodeBody readByte readU16 readI32 readU64 readU128
    readPubkey
  iterate 25 refine decRuns_bind (decRuns_readN _ _) (fun _ => ?_) ?_ ?_ ?_
  refine decRuns_bind (decRuns_skip _) (fun _ => ?_) ?_ ?_ ?_
  iterate 3 refine decRuns_bind decRuns_rewardInfo (fun _ => ?_) ?_ ?_ ?_
  iterate 23 refine decRuns_bind (decRuns_readN _ _) (fun _ => ?_) ?_ ?_ ?_
  refine decRuns_bind_tot (decRuns_readN _ _)
    (fun _ =>
      decTotal_bind (decTotal_skip _)
        (fun _ =>
          decTotal_bind (decTotal_skip _) (fun _ => decTotal_pure _)
            (by omega))
        (by omega)) ?_ ?_
  all_goals omega

/-- The CLMM decode body panics short of 1088 available bytes. -/
theorem clmmBody_fails : DecFails Raydium.clmmDecodeBody 1088 := by
  unfold Raydium.clmmDecodeBody readByte readU16 readI32 readU64 readU128
    readPubkey
  iterate 25
    refine decFails_comp (decRuns_readN _ _) (decFails_readN _ _)
      (fun _ => ?_) ?_ ?_
  refine decFails_skip (fun _ => ?_) ?_
  iterate 3
    refine decFails_comp decRuns_rewardInfo decFails_rewardInfo
      (fun _ => ?_) ?_ ?_
  iterate 23
    refine decFails_comp (decRuns_readN _ _) (decFails_readN _ _)
      (fun _ => ?_) ?_ ?_
  exact decFails_left (decFails_readN _ _)
  all_goals omega

/-- The Whirlpool decode body runs on 645 available bytes. -/
theorem whirlBody_runs : DecRuns Orca.whirlpoolDecodeBody 645 645 := by
  unfold Orca.whirlpoolDecodeBody readU16 readI32 readU64 readU128
    readPubkey
  iterate 18 refine decRuns_bind (decRuns_readN _ _) (fun _ => ?_) ?_ ?_ ?_
  iterate 2 refine decRuns_bind decRuns_wRewardInfo (fun _ => ?_) ?_ ?_ ?_
  refine decRuns_bind_tot decRuns_wRewardInfo (fun _ => decTotal_pure _) ?_ ?_
  all_goals omega

/-- The Whirlpool decode body panics short of 645 available bytes. -/
theorem whirlBody_fails : DecFails Orca.whirlpoolDecodeBody 645 := by
  unfold Orca.whirlpoolDecodeBody readU16 readI32 readU64 readU128
    readPubkey
  iterate 18
    refine decFails_comp (decRuns_readN _ _) (decFails_readN _ _)
      (fun _ => ?_) ?_ ?_
  iterate 2
    refine decFails_comp decRuns_wRewardInfo decFails_wRewardInfo
      (fun _ => ?_) ?_ ?_
  exact decFails_left decFails_wRewardInfo
  all_goals omega

/-- The Whirlpool pool decoder succeeds exactly on blobs covering its
decoded prefix: 645 bytes after the skipped 8-byte discriminator. -/
theorem whirlpool_decode_isSome_iff (data : List Nat) :
    (Orca.WhirlpoolPool.Decode data).isSome ↔ 653 ≤ data.length := by
  unfold Orca.WhirlpoolPool.Decode
  by_cases h8 : 8 < data.length
  · rw [if_pos h8]
    dsimp only
    by_cases hc : 645 ≤ (data.drop 8).length
    · obtain ⟨a, ha⟩ := whirlBody_runs (data.drop 8) 0 (by omega)
      rw [ha]
      simp only [Option.isSome_some, true_iff]
      simp only [List.length_drop] at hc
      omega
    · rw [whirlBody_fails (data.drop 8) 0 (by omega)]
      simp only [Option.isSome_none, Bool.false_eq_true, false_iff, not_le]
      simp only [List.length_drop, not_le] at hc
      omega
  · rw [if_neg h8]
    dsimp only
    rw [whirlBody_fails data 0 (by omega)]
    simp only [Option.isSome_none, Bool.false_eq_true, false_iff, not_le]
    omega

/-- The Raydium CLMM pool decoder succeeds exactly on blobs covering its
decoded prefix: 1088 bytes after the skipped 8-byte discriminator. -/
theorem clmm_decode_isSome_iff (data : List Nat) :
    (Raydium.CLMMPool.Decode data).isSome ↔ 1096 ≤ data.length := by
  unfold Raydium.CLMMPool.Decode
  by_cases h8 : 8 < data.length
  · rw [if_pos h8]
    dsimp only
    by_cases hc : 1088 ≤ (data.drop 8).length
    · obtain ⟨a, ha⟩ := clmmBody_runs (data.drop 8) 0 (by omega)
      rw [ha]
      simp only [Option.isSome_some, true_iff]
      simp only [List.length_drop] at hc
      omega
    · rw [clmmBody_fails (data.drop 8) 0 (by omega)]
      simp only [Option.isSome_none, Bool.false_eq_true, false_iff, not_le]
      simp only [List.length_drop, not_le] at hc
      omega
  · rw [if_neg h8]
    dsimp only
    rw [clmmBody_fails data 0 (by omega)]
    simp only [Option.isSome_none, Bool.false_eq_true, false_iff, not_le]
    omega

/-- C5 counterexample: both cited pool decoders, run on a 100-byte blob
(too short for either fixed layout), panic — `isSome = false` with `none`
modelling the runtime panic — instead of returning a
`DecodeError{field, offset}` value; 2000-byte blobs (longer than either
layout) decode successfully, ignoring the trailing bytes. -/
theorem pool_decoders_short_blob_cex :
    (Raydium.CLMMPool.Decode (List.replicate 100 0)).isSome = false ∧
      (Orca.WhirlpoolPool.Decode (List.replicate 100 0)).isSome = false ∧
      (Raydium.CLMMPool.Decode (List.replicate 2000 0)).isSome = true ∧
      (Orca.WhirlpoolPool.Decode (List.replicate 2000 0)).isSome = true := by
  refine ⟨?_, ?_, ?_, ?_⟩
  · have h := clmm_decode_isSome_iff (List.replicate 100 0)
    simp only [List.length_replicate] at h
    cases hb : (Raydium.CLMMPool.Decode (List.replicate 100 0)).isSome with
    | false => rfl
    | true => exact absurd (h.mp hb) (by omega)
  · have h := whirlpool_decode_isSome_iff (List.replicate 100 0)
    simp only [List.length_replicate] at h
    cases hb : (Orca.WhirlpoolPool.Decode (List.replicate 100 0)).isSome with
    | false => rfl
    | true => exact absurd (h.mp hb) (by omega)
  · have h := clmm_decode_isSome_iff (List.replicate 2000 0)
    simp only [List.length_replicate] at h
    exact h.mpr (by omega)
  · have h := whirlpool_decode_isSome_iff (List.replicate 2000 0)
    simp only [List.length_replicate] at h
    exact h.mpr (by omega)

/-- C5 amended: each pool decoder succeeds exactly when the blob covers the
decoded prefix of the layout (1096 bytes for the Raydium CLMM account, 653
for the Whirlpool account) — so unknown trailing padding of any length is
tolerated — and on shorter input it crashes with an index-out-of-range
panic; no decode error naming a field and offset is ever returned (the Go
functions' `error` results are always `nil`). -/
theorem pool_decoders_length_characterization (data : List Nat) :
    ((Raydium.CLMMPool.Decode data).isSome ↔ 1096 ≤ data.length) ∧
      ((Orca.WhirlpoolPool.Decode data).isSome ↔ 653 ≤ data.length) :=
  ⟨clmm_decode_isSome_iff data, whirlpool_decode_isSome_iff data⟩

/-- When both `result` and `current` carry a nonzero high 64-bit word, the
first iteration of the `Pow` loop reports an overflow, whatever the
exponent. -/
theorem powLoop_first_iter_err (result current exp : Nat)
    (hr : 0 < Meteora.hi128 result) (hc : 0 < Meteora.hi128 current)
    (he : exp ≠ 0) :
    Meteora.powLoop result current exp = .err "multiplication overflow" ∨
      Meteora.powLoop result current exp = .err "square overflow" := by
  rw [Meteora.powLoop]
  rw [dif_neg he]
  by_cases hodd : exp % 2 = 1
  · left
    simp only [if_pos hodd, if_pos (And.intro hr hc)]
  · right
    have h2 : 0 < exp / 2 := by omega
    simp only [if_neg hodd, if_pos h2, if_pos hc]

/-- `Pow` with a base of at least `2 ^ 64` (every Q64.64 value ≥ 1.0)
reports an overflow error for every nonzero exponent, because the running
`result` starts at `One = 2 ^ 64`. -/
theorem pow_hi_err (base : Nat) (power : Int) (hb : 2 ^ 64 ≤ base)
    (hp : power ≠ 0) :
    Meteora.Pow base power = .err "multiplication overflow" ∨
      Meteora.Pow base power = .err "square overflow" := by
  unfold Meteora.Pow
  rw [if_neg hp]
  have hOne : 0 < Meteora.hi128 Meteora.One := by
    norm_num [Meteora.hi128, Meteora.One]
  have hcb : 0 < Meteora.hi128 base := Nat.div_pos hb (by positivity)
  have hpt : (if power < 0 then -power else power).toNat ≠ 0 := by
    by_cases hneg : power < 0
    · rw [if_pos hneg]; omega
    · rw [if_neg hneg]; omega
  rcases powLoop_first_iter_err Meteora.One base _ hOne hcb hpt with h | h
  · left
    simp only [h]
  · right
    simp only [h]

/-- C3 (code bug): because `Pow` multiplies plain u128 values without the
Q64.64 `>>> 64` renormalization, its overflow guard fires on the very first
loop iteration for every base ≥ 1.0; hence `GetPriceFromID` returns an
overflow error for every nonzero bin id and every u16 bin step, instead of
the price `(1 + step/10000)^id`. -/
theorem getPriceFromID_always_errors (id : Int) (step : Nat)
    (hid : id ≠ 0) (hstep : step ≤ 65535) :
    Meteora.GetPriceFromID id step =
        .err "power calculation error: multiplication overflow" ∨
      Meteora.GetPriceFromID id step =
        .err "power calculation error: square overflow" := by
  have hsh : step * 2 ^ 64 % 2 ^ 128 = step * 2 ^ 64 :=
    Nat.mod_eq_of_lt (by
      have : step * 2 ^ 64 ≤ 65535 * 2 ^ 64 := Nat.mul_le_mul_right _ hstep
      omega)
  have hdiv : step * 2 ^ 64 / 10000 ≤ 65535 * 2 ^ 64 / 10000 :=
    Nat.div_le_div_right (Nat.mul_le_mul_right _ hstep)
  simp only [Meteora.GetPriceFromID, Meteora.BasisPointMax, Meteora.u128Add,
    Meteora.One, hsh]
  rw [if_neg (by norm_num)]
  rw [if_pos (by omega)]
  rcases pow_hi_err (2 ^ 64 + step * 2 ^ 64 / 10000) id
      (Nat.le_add_right _ _) hid with h | h
  · left
    dsimp only
    rw [h]
    rfl
  · right
    dsimp only
    rw [h]
    rfl

/-- C3 witness: the failing input bin id 1, bin step 25. -/
theorem getPriceFromID_always_errors_witness :
    Meteora.GetPriceFromID 1 25 =
        .err "power calculation error: multiplication overflow" ∨
      Meteora.GetPriceFromID 1 25 =
        .err "power calculation error: square overflow" :=
  getPriceFromID_always_errors 1 25 (by omega) (by omega)

/-- C4 counterexample: `MulShr (2^100) (2^100) 64` succeeds with the value
`2 ^ 136`, which cannot be represented in the 128-bit type of the original
contract — no arithmetic-overflow error is reported; and `ShlDiv` with a
zero divisor crashes (big.Int `DivMod` panic) instead of returning a
division-by-zero error. -/
theorem kernel_no_overflow_error_cex :
    Meteora.MulShr (2 ^ 100) (2 ^ 100) 64 .down = .ok (2 ^ 136) ∧
      (2 : Int) ^ 128 ≤ 2 ^ 136 ∧
      Meteora.ShlDiv 5 0 64 .down = .crash := by
  refine ⟨by rfl, by norm_num, by rfl⟩

/-- C4 amended: the integer-kernel functions compute over arbitrary
precision: `MulDiv` returns the exactly rounded quotient (floor for
`RoundingDown`, ceiling for `RoundingUp`) for every nonzero divisor and
never signals overflow; `MulShr` always succeeds, however large the result;
a zero divisor makes `MulDiv` (and hence `ShlDiv`) crash with a runtime
panic rather than return a division-by-zero error; and `Pow` reports
overflow through its high-word guards, which for any base ≥ `2 ^ 64`
reject every nonzero exponent. -/
theorem kernel_ops_arbitrary_precision (x y d : Int) (off : Nat)
    (r : Meteora.Rounding) (hd : 0 < d) :
    Meteora.MulDiv x y d .down = some (Int.fdiv (x * y) d) ∧
      Meteora.MulDiv x y d .up = some (-Int.fdiv (-(x * y)) d) ∧
      (∃ v, Meteora.MulShr x y off r = .ok v) ∧
      Meteora.MulDiv x y 0 r = none ∧
      Meteora.ShlDiv x 0 off r = .crash ∧
      (∀ p : Int, p ≠ 0 → ∀ b : Nat, 2 ^ 64 ≤ b → ∃ e, Meteora.Pow b p = .err e) := by
  have hfd : Int.fdiv (x * y) d = x * y / d := Int.fdiv_eq_ediv _ (by omega)
  have hfdn : Int.fdiv (-(x * y)) d = -(x * y) / d := Int.fdiv_eq_ediv _ (by omega)
  refine ⟨?_, ?_, ?_, ?_, ?_, ?_⟩
  · unfold Meteora.MulDiv
    rw [if_neg (by omega), if_neg (by simp), hfd]
  · unfold Meteora.MulDiv
    rw [if_neg (by omega), hfdn, neg_ediv_of_pos (x * y) d hd]
    by_cases hz : x * y % d = 0
    · rw [if_neg (by simp [hz]), if_pos hz]
      norm_num
    · rw [if_pos (by simp [hz]), if_neg hz]
  · unfold Meteora.MulShr Meteora.MulDiv
    rw [if_neg (by positivity), if_neg (by positivity)]
    by_cases hc : r = .up ∧ x * y % 2 ^ off ≠ 0
    · rw [if_pos hc]
      exact ⟨_, rfl⟩
    · rw [if_neg hc]
      exact ⟨_, rfl⟩
  · unfold Meteora.MulDiv
    rw [if_pos rfl]
  · unfold Meteora.ShlDiv Meteora.MulDiv
    rw [if_neg (by positivity), if_pos rfl]
  · intro p hp b hb
    rcases pow_hi_err b p hb hp with h | h
    · exact ⟨_, h⟩
    · exact ⟨_, h⟩

/-- C4 witness: the kernel contract statements at `x = 3`, `y = 5`,
`d = 7`, `offset = 2`, rounding down. -/
theorem kernel_ops_arbitrary_precision_witness :
    Meteora.MulDiv 3 5 7 .down = some (Int.fdiv (3 * 5) 7) ∧
      Meteora.MulDiv 3 5 7 .up = some (-Int.fdiv (-(3 * 5)) 7) ∧
      (∃ v, Meteora.MulShr 3 5 2 .down = .ok v) ∧
      Meteora.MulDiv 3 5 0 .down = none ∧
      Meteora.ShlDiv 3 0 2 .down = .crash ∧
      (∀ p : Int, p ≠ 0 → ∀ b : Nat, 2 ^ 64 ≤ b → ∃ e, Meteora.Pow b p = .err e) :=
  kernel_ops_arbitrary_precision 3 5 7 2 .down (by omega)

/-- C2 counterexample: `getWhirlpoolTickArrayStartIndex`, one of the
library's Whirlpool start-index computations, uses Go truncated `%`; at
tick `-1`, spacing `1` it yields `0`, not `-88`, violating
`start(t,s) ≤ t`. -/
theorem whirlpool_start_truncated_cex :
    Orca.getWhirlpoolTickArrayStartIndex (-1) 1 = 0 ∧
      ¬(Orca.getWhirlpoolTickArrayStartIndex (-1) 1 ≤ -1) ∧
      Orca.getWhirlpoolTickArrayStartIndex (-1) 1 ≠ -88 := by
  refine ⟨by decide, ?_, by decide⟩
  intro h
  rw [show Orca.getWhirlpoolTickArrayStartIndex (-1) 1 = 0 from by decide] at h
  omega

/-- C2 amended: the floored start-index computations used on the quoting
path — `getWhirlpoolTickArrayStartIndexByTick` and
`getOfficialTickArrayStartIndex` with offset `0` — satisfy
`start(t,s) ≤ t < start(t,s) + 88·s` for every tick in the valid range and
every u16 spacing, flooring toward negative infinity, and concretely give
`start(-1,1) = -88`. -/
theorem whirlpool_tick_array_start_floored (t s : Int)
    (h1 : -443636 ≤ t) (h2 : t ≤ 443636) (h3 : 1 ≤ s) (h4 : s ≤ 65535) :
    (Orca.getWhirlpoolTickArrayStartIndexByTick t s ≤ t ∧
      t < Orca.getWhirlpoolTickArrayStartIndexByTick t s + 88 * s) ∧
    (∀ v, Orca.getOfficialTickArrayStartIndex t s 0 = .ok v →
      v ≤ t ∧ t < v + 88 * s) ∧
    Orca.getWhirlpoolTickArrayStartIndexByTick (-1) 1 = -88 ∧
    Orca.getOfficialTickArrayStartIndex (-1) 1 0 = .ok (-88) := by
  have hN : (0 : Int) < s * 88 := by omega
  have hmod := Int.ediv_add_emod t (s * 88)
  have hm0 : 0 ≤ t % (s * 88) := Int.emod_nonneg _ (by omega)
  have hm1 : t % (s * 88) < s * 88 := Int.emod_lt_of_pos _ hN
  have hfl : Int.fdiv t (s * 88) = t / (s * 88) := Int.fdiv_eq_ediv _ (by omega)
  have hcomm : t / (s * 88) * (s * 88) = s * 88 * (t / (s * 88)) := mul_comm _ _
  refine ⟨?_, ?_, by rfl, by rfl⟩
  · unfold Orca.getWhirlpoolTickArrayStartIndexByTick Orca.getWhirlpoolTickCount
      Orca.TICK_ARRAY_SIZE
    rw [hfl]
    omega
  · intro v hv
    have hreal :
        (if 0 ≤ t then Int.tdiv t (s * Orca.TICK_ARRAY_SIZE)
          else
            if Int.tmod t (s * Orca.TICK_ARRAY_SIZE) ≠ 0 then
              Int.tdiv t (s * Orca.TICK_ARRAY_SIZE) - 1
            else Int.tdiv t (s * Orca.TICK_ARRAY_SIZE)) = Int.fdiv t (s * 88) := by
      rw [← tdiv_adjust_eq_fdiv t (s * 88) hN]
      unfold Orca.TICK_ARRAY_SIZE
      rcases le_or_lt 0 t with ht | ht
      · rw [if_pos ht, if_neg (by omega)]
      · rw [if_neg (by omega)]
        by_cases hz : Int.tmod t (s * 88) = 0
        · rw [if_neg (by simpa using hz), if_neg (by omega)]
        · rw [if_pos (by simpa using hz), if_pos (by exact ⟨ht, hz⟩)]
    simp only [Orca.getOfficialTickArrayStartIndex] at hv
    rw [hreal] at hv
    split_ifs at hv
    cases hv
    have hassoc :
        (Int.fdiv t (s * 88) + 0) * s * Orca.TICK_ARRAY_SIZE =
          t / (s * 88) * (s * 88) := by
      unfold Orca.TICK_ARRAY_SIZE
      rw [hfl]
      ring
    rw [hassoc]
    omega

/-- C2 witness: the floored computations at tick `-1`, spacing `1`. -/
theorem whirlpool_tick_array_start_floored_witness :
    (Orca.getWhirlpoolTickArrayStartIndexByTick (-1) 1 ≤ -1 ∧
      (-1 : Int) < Orca.getWhirlpoolTickArrayStartIndexByTick (-1) 1 + 88 * 1) ∧
    (∀ v, Orca.getOfficialTickArrayStartIndex (-1) 1 0 = .ok v →
      v ≤ -1 ∧ (-1 : Int) < v + 88 * 1) ∧
    Orca.getWhirlpoolTickArrayStartIndexByTick (-1) 1 = -88 ∧
    Orca.getOfficialTickArrayStartIndex (-1) 1 0 = .ok (-88) :=
  whirlpool_tick_array_start_floored (-1) 1 (by omega) (by omega) (by omega)
    (by omega)

/-- The swap loop's body-run count is bounded by the remaining counter
budget. -/
theorem swapLoopGo_count_le (body : Raydium.SwapState → Except String Raydium.SwapState) :
    ∀ n loop st, 101 - loop ≤ n → loop ≤ 100 →
      (Raydium.swapLoopGo body st loop).2 ≤ 101 - loop := by
  intro n
  induction n with
  | zero => intro loop st h1 h2; omega
  | succ n ih =>
    intro loop st h1 h2
    rw [Raydium.swapLoopGo]
    by_cases hexit : st.amountSpecifiedRemaining = 0 ∨
        st.sqrtPriceX64 = st.sqrtPriceLimitX64
    · rw [if_pos hexit]
      omega
    · rw [if_neg hexit]
      cases hb : body st with
      | error e =>
        dsimp only
        omega
      | ok st' =>
        dsimp only
        by_cases hl : 100 < loop + 1
        · rw [dif_pos hl]
          omega
        · rw [dif_neg hl]
          have := ih (loop + 1) st' (by omega) (by omega)
          dsimp only
          omega

/-- When the body never errors and the exit condition never holds within
the counter budget, the loop runs its cap and reports divergence. -/
theorem swapLoopGo_diverges (B : Raydium.SwapState → Raydium.SwapState) :
    ∀ n loop st, 101 - loop = n → loop ≤ 100 →
      (∀ k, k ≤ 100 - loop →
        ¬((B^[k] st).amountSpecifiedRemaining = 0 ∨
          (B^[k] st).sqrtPriceX64 = (B^[k] st).sqrtPriceLimitX64)) →
      Raydium.swapLoopGo (fun s => .ok (B s)) st loop =
        (.error "swap computation exceeded maximum iterations", 101 - loop) := by
  intro n
  induction n with
  | zero => intro loop st h1 h2 hne; omega
  | succ n ih =>
    intro loop st h1 h2 hne
    rw [Raydium.swapLoopGo]
    have h0 := hne 0 (by omega)
    rw [Function.iterate_zero_apply] at h0
    rw [if_neg h0]
    dsimp only
    by_cases hl : 100 < loop + 1
    · rw [dif_pos hl]
      have hq : loop = 100 := by omega
      subst hq
      rfl
    · rw [dif_neg hl]
      have hrec := ih (loop + 1) (B st) (by omega) (by omega)
        (fun k hk => by
          have := hne (k + 1) (by omega)
          rwa [Function.iterate_succ_apply] at this)
      rw [hrec]
      have he : 101 - (loop + 1) + 1 = 101 - loop := by omega
      rw [he]

/-- C8: the CLMM exact-input swap computation always terminates — for
every behaviour of the loop body: the body runs at most 101 times; the
loop exits immediately when the remaining amount is zero or the sqrt price
equals the direction's price limit; when the body keeps succeeding and
neither exit condition ever holds, the loop stops after its cap with the
maximum-iterations (computation-diverged) error instead of iterating
further; and for nonzero input `swapCompute` runs this loop with the
direction's price limit. -/
theorem swapCompute_terminates
    (body : Raydium.SwapState → Except String Raydium.SwapState)
    (st : Raydium.SwapState) :
    (Raydium.swapLoopGo body st 0).2 ≤ 101 ∧
      ((st.amountSpecifiedRemaining = 0 ∨
          st.sqrtPriceX64 = st.sqrtPriceLimitX64) →
        Raydium.swapLoopGo body st 0 = (.ok st.amountCalculated, 0)) ∧
      (∀ B : Raydium.SwapState → Raydium.SwapState,
        (∀ k, k ≤ 100 →
          ¬((B^[k] st).amountSpecifiedRemaining = 0 ∨
            (B^[k] st).sqrtPriceX64 = (B^[k] st).sqrtPriceLimitX64)) →
        Raydium.swapLoopGo (fun s => .ok (B s)) st 0 =
          (.error "swap computation exceeded maximum iterations", 101)) ∧
      (∀ a s l t : Int, a ≠ 0 →
        Raydium.swapCompute body a s l t =
          (Raydium.swapLoopGo body
            ⟨a, 0, s, t, l,
              if 0 < a then Raydium.MIN_SQRT_PRICE_X64 + 1
              else Raydium.MAX_SQRT_PRICE_X64 - 1⟩ 0).1) := by
  refine ⟨?_, ?_, ?_, ?_⟩
  · have := swapLoopGo_count_le body 101 0 st (by omega) (by omega)
    omega
  · intro hexit
    rw [Raydium.swapLoopGo, if_pos hexit]
  · intro B hne
    have := swapLoopGo_diverges B 101 0 st (by omega) (by omega)
      (fun k hk => hne k (by omega))
    simpa using this
  · intro a s l t ha
    unfold Raydium.swapCompute
    rw [if_neg ha]

/-- C8 witness: with an identity body and a state whose remaining amount
is 1 and whose price never reaches the limit, the loop stops with the
divergence error after exactly 101 body runs; the run count is within the
cap. -/
theorem swapCompute_terminates_witness :
    (Raydium.swapLoopGo (fun s => .ok (id s)) ⟨1, 0, 0, 0, 0, 1⟩ 0).2 ≤ 101 ∧
      Raydium.swapLoopGo (fun s => .ok (id s)) ⟨1, 0, 0, 0, 0, 1⟩ 0 =
        (.error "swap computation exceeded maximum iterations", 101) :=
  ⟨(swapCompute_terminates (fun s => .ok (id s)) ⟨1, 0, 0, 0, 0, 1⟩).1,
    (swapCompute_terminates (fun s => .ok (id s)) ⟨1, 0, 0, 0, 0, 1⟩).2.2.1 id
      (by
        intro k hk
        rw [Function.iterate_id]
        decide)⟩

/-- C6: the Whirlpool tick-array PDA is derived from the seeds
`["tick_array", pool bytes, decimal-string rendering of the start index]`;
for start index `-88` the third seed is the three ASCII bytes `"-88"`
(`[45, 56, 56]`), not the raw little-endian integer encoding. -/
theorem whirlpool_tick_array_pda_seeds {α : Type}
    (findProgramAddress : List (List Nat) → α) (pool : List Nat) :
    Orca.DeriveWhirlpoolTickArrayPDA findProgramAddress pool (-88) =
        findProgramAddress [Orca.asciiBytes "tick_array", pool, [45, 56, 56]] ∧
      Orca.asciiBytes (toString (-88 : Int)) = [45, 56, 56] ∧
      Orca.asciiBytes "tick_array" =
        [116, 105, 99, 107, 95, 97, 114, 114, 97, 121] ∧
      Orca.DeriveWhirlpoolTickArrayPDASeeds pool (-88) ≠
        [Orca.asciiBytes "tick_array", pool, Orca.int64LeBytes (-88)] := by
  refine ⟨?_, by decide, by decide, ?_⟩
  · unfold Orca.DeriveWhirlpoolTickArrayPDA Orca.DeriveWhirlpoolTickArrayPDASeeds
      Orca.TICK_ARRAY_SEED
    rw [show Orca.asciiBytes (toString (-88 : Int)) = [45, 56, 56] from by decide]
  · intro h
    unfold Orca.DeriveWhirlpoolTickArrayPDASeeds at h
    have h3 : Orca.asciiBytes (toString (-88 : Int)) = Orca.int64LeBytes (-88) := by
      injection h with ha hb
      injection hb with hc hd
      injection hd with he hf
    exact absurd h3 (by decide)

end SolRoute
